import Mathlib

/-!
Verification of the GriffinWave wavetable engine core
(`Griffin_WT.h`, `Griffin_WaveMaker.h`, `src/griffinwave5/MipMapFlt.hpp`).

Machine integers (`int`, `long`, `gw5::Int64`) are embedded as `ℤ`; where a
shift or mask occurs the embedding states the arithmetic value it computes on
the two's-complement representation (`>> 32` on a signed 64-bit value is
floor division by 2^32, `& (2^k - 1)` is the Euclidean remainder modulo 2^k,
`x << 32 | frac` with `0 ≤ x < 2^31` and `0 ≤ frac < 2^32` is
`x * 2^32 + frac`).  `float`/`double` quantities that only flow through
additions, multiplications and comparisons are embedded as `ℚ`.
-/

namespace GriffinWave

/-! ## Constants (Griffin_WT.h lines 93-100)

On ℤ, `%` is the Euclidean remainder (the two's-complement low bits) and
`/` is Euclidean division, which for the positive divisors used here is
floor division, i.e. an arithmetic right shift. -/

def FRAME_SIZE : ℤ := 2048
def MAX_FRAMES : ℤ := 256
def PADDED : ℤ := FRAME_SIZE * 3
def SLICE : ℤ := 8

/-- `Griffin_WT::prepare` (Griffin_WT.h:190-191):
`frameStart[f] = Int64(f) * PADDED + FRAME_SIZE`. -/
def frameStart (f : ℤ) : ℤ := f * PADDED + FRAME_SIZE

/-- `Griffin_WT::wrap` (Griffin_WT.h:533-539).
`ip = p >> 32` (arithmetic shift = floor division by `2^32`),
`frac = p & 0xffffffff` (= `p` mod `2^32`), `st = frameStart[idx]`,
result `(((ip - st) & (cycle - 1)) + st) << 32 | frac` with `cycle = 2048`:
the mask is the remainder modulo 2048 and, the shifted value being
nonnegative and below `2^31` with zero low bits, `<< 32 | frac` is
`· * 2^32 + frac`. -/
def wrap (idx : ℤ) (p : ℤ) : ℤ :=
  let ip := p / 2 ^ 32
  let frac := p % 2 ^ 32
  let st := frameStart idx
  (((ip - st) % FRAME_SIZE) + st) * 2 ^ 32 + frac

/-! ## Voice pack model (Griffin_WT.h `struct VoicePack`, `Lane`, lines 76-161)

`ResamplerFlt`'s implementation file is not part of the sources, so the lane
operations driven by `Griffin_WT` are modelled from the spec (section 4.5):
`set_playback_pos` / `get_playback_pos` are direct accessors on the current
voice's 64-bit position, `set_pitch` stores the pitch, `set_sample_sp` stores
the mipmap handle and `clear_buffers` clears FIR history, neither of the last
two changing the playback position. -/

/-- One resampler lane (`struct Lane`, Griffin_WT.h:76-81). `mip` is the
identity of the bound mipmap (the `shared_ptr` target modelled as a tag);
`pos` / `pitch` are the resampler's playback position and pitch.
Modelled from the spec: the `ResamplerFlt` internals behind `res` (the
implementation file is absent); only the accessor-visible fields appear. -/
structure Lane where
  pos : ℤ
  pitch : ℤ
  mip : ℕ
  frameIdx : ℤ
  active : Bool
deriving Repr, DecidableEq

/-- `struct VoicePack` (Griffin_WT.h:118-161). `float` / `double` fields are
embedded as `ℚ`. -/
structure VoicePack where
  A : Lane
  B : Lane
  pitchBits : ℤ
  semiOff : ℚ
  multOff : ℚ
  toggle : Bool
  fading : Bool
  fadeAlpha : ℚ
  frameParam : ℤ
  pendFrame : ℤ
  pendFlag : Bool
  midi : ℤ
  vel : ℚ
  active : Bool
  glideCurBits : ℚ
  glideStepBitsPerSample : ℚ
  glideSamplesRemaining : ℤ
deriving Repr, DecidableEq

/-- `VoicePack::clear` (Griffin_WT.h:141-149). -/
def VoicePack.clear (vp : VoicePack) : VoicePack :=
  { vp with
    A := { vp.A with active := false }
    B := { vp.B with active := false }
    active := false
    fading := false
    toggle := false
    pendFlag := false
    fadeAlpha := 1
    glideCurBits := 0
    glideStepBitsPerSample := 0
    glideSamplesRemaining := 0 }

/-- `VoicePack::reset` (Griffin_WT.h:151-160). -/
def VoicePack.reset (vp : VoicePack) (note : ℤ) (v : ℚ) (gFrame : ℤ)
    (semi mult : ℚ) : VoicePack :=
  { vp.clear with
    midi := note
    vel := v
    frameParam := gFrame
    pendFrame := gFrame
    semiOff := semi
    multOff := mult
    active := true }

/-- `Griffin_WT::initLane` (Griffin_WT.h:499-506): `set_interp`,
`set_sample_sp(_activeMip)`, `clear_buffers` (no effect on the modelled
position/pitch per spec 4.5), then `active = false; frameIdx = -1`. -/
def initLane (activeMip : ℕ) (l : Lane) : Lane :=
  { l with mip := activeMip, active := false, frameIdx := -1 }

/-- `Griffin_WT::switchFrame` (Griffin_WT.h:541-562).  `cycle = FRAME_SIZE`;
`p >> 32` is floor division by `2^32`, `p & 0xffffffff` is `p % 2^32`,
`(ip - frameStart[frameParam]) & (cycle - 1)` is `· % 2048`, and
`(x << 32) | frac` with `0 ≤ x < 2^31` is `x * 2^32 + frac`. -/
def switchFrame (activeMip : ℕ) (vp : VoicePack) : VoicePack :=
  let src := if vp.toggle then vp.B else vp.A
  let dst := if vp.toggle then vp.A else vp.B
  let p := src.pos
  let ip := p / 2 ^ 32
  let frac := p % 2 ^ 32
  let rel := (ip - frameStart vp.frameParam) % FRAME_SIZE
  let dst := initLane activeMip dst
  let dst := { dst with
    pos := (frameStart vp.pendFrame + rel) * 2 ^ 32 + frac
    pitch := vp.pitchBits
    frameIdx := vp.pendFrame
    active := true }
  let vp' := if vp.toggle then { vp with A := dst } else { vp with B := dst }
  { vp' with
    fading := true
    toggle := !vp.toggle
    fadeAlpha := 0
    frameParam := vp.pendFrame
    pendFlag := false }

/-- The foreground lane of a voice (`vp.toggle ? vp.B : vp.A`,
Griffin_WT.h:309). -/
def VoicePack.foreground (vp : VoicePack) : Lane :=
  if vp.toggle then vp.B else vp.A

/-! ## Glide (Griffin_WT.h process lines 285-310, setParameter lines 382-456)

The glide target in bits is `12·log2(paramGlideTarget)·(1<<16)/12` computed
in `double`; the code recomputes this same expression both when arming the
glide and when snapping at the end.  The embedding keeps that value as a
symbolic rational parameter `tgt`, since only its exact reuse — not its
transcendental value — decides the claims below. -/

/-- `std::lround`: round half away from zero (Griffin_WT.h:308). -/
def lround (q : ℚ) : ℤ := if q < 0 then -⌊-q + 1 / 2⌋ else ⌊q + 1 / 2⌋

/-- The per-slice glide advance applied to one voice
(Griffin_WT.h:287-306).  `glideOn` is `paramGlideOn`, `tgt` is the value
`glideSemis * SEMI2BITS` the code computes from `paramGlideTarget`,
`len` is the slice length. -/
def glideAdvance (glideOn : Bool) (tgt : ℚ) (len : ℕ) (vp : VoicePack) :
    VoicePack :=
  if glideOn then
    if 0 < vp.glideSamplesRemaining then
      let adv : ℤ := min vp.glideSamplesRemaining (len : ℤ)
      let cur := vp.glideCurBits + vp.glideStepBitsPerSample * adv
      let rem := vp.glideSamplesRemaining - adv
      if rem ≤ 0 then
        { vp with glideCurBits := tgt, glideSamplesRemaining := 0 }
      else
        { vp with glideCurBits := cur, glideSamplesRemaining := rem }
    else vp
  else
    if vp.glideCurBits ≠ 0 then
      { vp with glideCurBits := 0, glideSamplesRemaining := 0 }
    else vp

/-- `setParameter<7>` (Griffin_WT.h:437): `paramGlideTarget = v <= 0.0 ? 1.0
: v`; `setParameter<4>` (line 375) applies the same coercion to `paramMult`. -/
def coerceMult (v : ℚ) : ℚ := if v ≤ 0 then 1 else v

/-- `paramGlideTarget` after a sequence of Glide-Mult (id 7) parameter
writes; the constructor initialises it to `1.0` (Griffin_WT.h:177). -/
def glideTargetAfter (vs : List ℚ) : ℚ :=
  vs.foldl (fun _ v => coerceMult v) 1

/-! ## Per-voice processing (Griffin_WT.h process lines 277-342)

`process` iterates the block in slices of `min SLICE (N - base)` samples and
each voice's state evolves independently inside a slice, so the per-voice
evolution is modelled as a state machine on `VoicePack`.  Engine quantities
that are fixed across a run are collected in `Ctx`.  `FADE_LEN` comes from
`gw5::BaseVoiceState` whose header is not among the sources; it is
modelled from the spec: a fixed positive crossfade length (spec 4.6,
`fadeDelta = 1 / FADE_LEN` per Griffin_WT.h:139), kept as a parameter. -/

/-- Run-constant engine context: `FADE_LEN` (see above), `paramGlideOn`,
the glide target in bits (`12·log2(paramGlideTarget)·SEMI2BITS`, kept
symbolic), the glide length in samples (`paramGlideTime * sr`), and the
identity of `_activeMip`. -/
structure Ctx where
  FADE_LEN : ℕ
  glideOn : Bool
  tgtBits : ℚ
  glideSamples : ℚ
  activeMip : ℕ
deriving Repr, DecidableEq

/-- C-style `int(double)` cast: truncation toward zero. -/
def ctrunc (q : ℚ) : ℤ := if q < 0 then -⌊-q⌋ else ⌊q⌋

/-- The lane production step of one slice (Griffin_WT.h:310-312 and 317-320):
`set_pitch`, `set_playback_pos (wrap frameParam pos)`, `interpolate_block`.
Modelled from the spec: `interpolate_block` advances the playback position
by the resampler's per-sample step (ResamplerFlt.cpp is absent); its total
advance over the slice is abstracted as `adv`. -/
def laneProduce (pitch frameParam adv : ℤ) (l : Lane) : Lane :=
  { l with pitch := pitch, pos := wrap frameParam l.pos + adv }

/-- The production stages of one slice for one voice (Griffin_WT.h:285-328):
pending frame switch, glide advance, foreground lane production and, while
fading, previous lane production (the mixing itself only touches audio). -/
def sliceProduce (c : Ctx) (len : ℕ) (advC advP : ℤ)
    (vp : VoicePack) : VoicePack :=
  let vp := if vp.pendFlag then switchFrame c.activeMip vp else vp
  let vp := glideAdvance c.glideOn c.tgtBits len vp
  let pitch := vp.pitchBits + lround vp.glideCurBits
  let vp := if vp.toggle
    then { vp with B := laneProduce pitch vp.frameParam advC vp.B }
    else { vp with A := laneProduce pitch vp.frameParam advC vp.A }
  if vp.fading then
    (if vp.toggle
      then { vp with A := laneProduce pitch vp.frameParam advP vp.A }
      else { vp with B := laneProduce pitch vp.frameParam advP vp.B })
  else vp

/-- The fade-alpha update closing one slice (Griffin_WT.h:330-338):
`fadeAlpha += fadeDelta() * len`, and at `fadeAlpha ≥ 1` the fade ends and
the previous lane is deactivated. -/
def fadeUpdate (c : Ctx) (len : ℕ) (vp : VoicePack) : VoicePack :=
  if vp.fading then
    let alpha := vp.fadeAlpha + 1 / (c.FADE_LEN : ℚ) * (len : ℚ)
    if 1 ≤ alpha then
      let vp := { vp with fadeAlpha := alpha, fading := false }
      if vp.toggle then { vp with A := { vp.A with active := false } }
      else { vp with B := { vp.B with active := false } }
    else { vp with fadeAlpha := alpha }
  else vp

/-- One voice's processing for one slice of `len` samples
(Griffin_WT.h:284-338). -/
def processVoiceSlice (c : Ctx) (len : ℕ) (advC advP : ℤ)
    (vp : VoicePack) : VoicePack :=
  if vp.active = false then vp
  else fadeUpdate c len (sliceProduce c len advC advP vp)

/-- The note-on handler's per-voice effect (Griffin_WT.h:203-247): `reset`,
lane rebinding to `_activeMip`, `updatePitch` (its transcendental pitch
value kept as the parameter `pitchBits`), glide arming, and the randomized
start position (randomness kept as the parameter `startPos`). -/
def noteOnVoice (c : Ctx) (note : ℤ) (vel : ℚ) (gFrame : ℤ) (semi mult : ℚ)
    (pitchBits startPos : ℤ) (vp : VoicePack) : VoicePack :=
  let vp := vp.reset note vel gFrame semi mult
  let vp := { vp with
    A := { vp.A with mip := c.activeMip }
    B := { vp.B with mip := c.activeMip } }
  let vp := { vp with
    pitchBits := pitchBits
    A := { vp.A with pitch := pitchBits }
    B := { vp.B with pitch := pitchBits } }
  let vp := if c.glideOn then
      (if 0 < c.glideSamples then
        { vp with
          glideStepBitsPerSample := c.tgtBits / c.glideSamples
          glideSamplesRemaining := ctrunc c.glideSamples }
      else
        { vp with
          glideCurBits := c.tgtBits
          glideStepBitsPerSample := 0
          glideSamplesRemaining := 0 })
    else vp
  { vp with
    A := { vp.A with
      pos := startPos
      frameIdx := vp.frameParam
      active := true } }

/-- `jlimit(0, MAX_FRAMES - 1, f)` (Griffin_WT.h:355). -/
def clampFrame (f : ℤ) : ℤ := max 0 (min f (MAX_FRAMES - 1))

/-- The per-voice events between slices: a note-on (Griffin_WT.h:203-247),
a Frame parameter write (`setParameter<1>`, lines 353-362), or one
processed slice (`len = min SLICE (N - base)` samples, with the two lanes'
abstracted block advances). -/
inductive Step where
  | noteOn (note : ℤ) (vel : ℚ) (gFrame : ℤ) (semi mult : ℚ)
      (pitchBits startPos : ℤ)
  | setFrame (f : ℤ)
  | slice (len : ℕ) (advC advP : ℤ)
deriving Repr, DecidableEq

/-- Slice lengths produced by the block loop are in `[1, SLICE]`. -/
def Step.valid : Step → Bool
  | .slice len _ _ => decide (1 ≤ len ∧ len ≤ 8)
  | _ => true

def applyStep (c : Ctx) (vp : VoicePack) : Step → VoicePack
  | .noteOn note vel gFrame semi mult pitchBits startPos =>
    noteOnVoice c note vel gFrame semi mult pitchBits startPos vp
  | .setFrame f =>
    let g := clampFrame f
    if vp.active = true ∧ g ≠ vp.frameParam then
      { vp with pendFrame := g, pendFlag := true }
    else vp
  | .slice len advC advP => processVoiceSlice c len advC advP vp

def runSteps (c : Ctx) (steps : List Step) (vp : VoicePack) : VoicePack :=
  steps.foldl (applyStep c) vp

/-- Default-constructed `VoicePack` (member initialisers,
Griffin_WT.h:118-137; `Lane` at 76-81). -/
def VoicePack.init : VoicePack :=
  { A := ⟨0, 0, 0, -1, false⟩, B := ⟨0, 0, 0, -1, false⟩,
    pitchBits := 0, semiOff := 0, multOff := 1, toggle := false,
    fading := false, fadeAlpha := 1, frameParam := 0, pendFrame := 0,
    pendFlag := false, midi := -1, vel := 1, active := false,
    glideCurBits := 0, glideStepBitsPerSample := 0,
    glideSamplesRemaining := 0 }

/-- `Griffin_WT::initVoice` (Griffin_WT.h:508-518), run from `prepare`. -/
def initVoice (c : Ctx) (globalFrame : ℤ) (paramSemi paramMult : ℚ)
    (vp : VoicePack) : VoicePack :=
  let vp := { vp with
    A := initLane c.activeMip vp.A
    B := initLane c.activeMip vp.B }
  let vp := vp.clear
  let vp := { vp with frameParam := globalFrame, pendFrame := globalFrame }
  let vp := { vp with
    A := { vp.A with
      pos := frameStart globalFrame * 2 ^ 32
      frameIdx := globalFrame } }
  { vp with semiOff := paramSemi, multOff := paramMult }

/-! ## Engine state and the real-time entry points

`Griffin_WT` node state (Griffin_WT.h:473-497) restricted to the fields the
real-time entry points read or write; the active mipmap `shared_ptr` is the
tag `activeMip`, the voices are a list. -/

structure Engine where
  ready : Bool
  sr : ℚ
  globalVolume : ℚ
  globalFrame : ℤ
  paramSemi : ℚ
  paramMult : ℚ
  paramGlideOn : Bool
  paramGlideTime : ℚ
  activeMip : ℕ
  voices : List VoicePack
deriving Repr, DecidableEq

/-- The per-voice rebinding when a new mipmap is adopted
(Griffin_WT.h:257-266): `set_sample_sp` + `clear_buffers` on both lanes and,
for an active voice, `set_pitch(pitchBits)`. -/
def rebindVoice (m : ℕ) (v : VoicePack) : VoicePack :=
  let v := { v with
    A := { v.A with mip := m }
    B := { v.B with mip := m } }
  if v.active then
    { v with
      A := { v.A with pitch := v.pitchBits }
      B := { v.B with pitch := v.pitchBits } }
  else v

/-- The mipmap-adoption prologue of `process` (Griffin_WT.h:253-267):
`mp` is the builder's `current()` (`none` for a null pointer; only fully
built — `is_ready` — mipmaps are published, AsyncMipBuilder.h:111-120).  It
runs before the `if (!ready) return` gate. -/
def adoptMip (mp : Option ℕ) (e : Engine) : Engine :=
  match mp with
  | some m =>
    if m ≠ e.activeMip then
      { e with activeMip := m, voices := e.voices.map (rebindVoice m) }
    else e
  | none => e

/-- The block's slice lengths (`len = jmin(SLICE, N - base)`,
Griffin_WT.h:277-279). -/
def sliceLens : ℕ → List ℕ
  | 0 => []
  | n + 1 => if n + 1 ≤ 8 then [n + 1] else 8 :: sliceLens (n + 1 - 8)

/-- The ready-branch slice loop of `process` (Griffin_WT.h:277-342), state
effects only: every voice advances through `processVoiceSlice` per slice. -/
def processReady (F : ℕ) (tgt : ℚ) (advC advP : ℤ) (N : ℕ)
    (e : Engine) : Engine :=
  let c : Ctx := ⟨F, e.paramGlideOn, tgt, e.paramGlideTime * e.sr, e.activeMip⟩
  let vs := (sliceLens N).foldl
    (fun vs len => vs.map (processVoiceSlice c len advC advP)) e.voices
  { e with voices := vs }

/-- `Griffin_WT::process` (Griffin_WT.h:251-346): mipmap adoption, the
`ready` gate, then the slice loop.  `mixOut` abstracts the accumulated mono
mix the slice loop produces (its sample values come from the absent
resampler implementation); the output block is left = `mixOut` scaled by
`globalVolume` and right = copy of left. -/
def process (F : ℕ) (tgt : ℚ) (advC advP : ℤ) (mixOut : List ℚ)
    (mp : Option ℕ) (N : ℕ) (inL inR : List ℚ) (e : Engine) :
    Engine × List ℚ × List ℚ :=
  let e1 := adoptMip mp e
  if e1.ready = false then (e1, inL, inR)
  else
    (processReady F tgt advC advP N e1,
      mixOut.map (fun x => x * e1.globalVolume),
      mixOut.map (fun x => x * e1.globalVolume))

/-- `Griffin_WT::handleHiseEvent` (Griffin_WT.h:199-248): gated on `ready`;
on a note-on the `PolyData`-selected voice `idx` is re-seeded.  `pitchBits`
and `startPos` carry `updatePitch`'s transcendental result and the random
start phase. -/
def handleHiseEvent (e : Engine) (isNoteOn : Bool) (note : ℤ) (vel : ℚ)
    (idx : ℕ) (F : ℕ) (tgt : ℚ) (pitchBits startPos : ℤ) : Engine :=
  if e.ready = false then e
  else if isNoteOn then
    let c : Ctx := ⟨F, e.paramGlideOn, tgt, e.paramGlideTime * e.sr,
      e.activeMip⟩
    let vp := noteOnVoice c note vel e.globalFrame e.paramSemi e.paramMult
      pitchBits startPos (e.voices.getD idx VoicePack.init)
    { e with voices := e.voices.set idx vp }
  else e

/-- Equality of two `VoicePack`s on everything except the lanes' mipmap
binding and pitch — the fields `rebindVoice` may touch. -/
def voiceCoreEq (v w : VoicePack) : Prop :=
  w.A.pos = v.A.pos ∧ w.A.frameIdx = v.A.frameIdx ∧
  w.A.active = v.A.active ∧
  w.B.pos = v.B.pos ∧ w.B.frameIdx = v.B.frameIdx ∧
  w.B.active = v.B.active ∧
  w.pitchBits = v.pitchBits ∧ w.semiOff = v.semiOff ∧
  w.multOff = v.multOff ∧ w.toggle = v.toggle ∧ w.fading = v.fading ∧
  w.fadeAlpha = v.fadeAlpha ∧ w.frameParam = v.frameParam ∧
  w.pendFrame = v.pendFrame ∧ w.pendFlag = v.pendFlag ∧
  w.midi = v.midi ∧ w.vel = v.vel ∧ w.active = v.active ∧
  w.glideCurBits = v.glideCurBits ∧
  w.glideStepBitsPerSample = v.glideStepBitsPerSample ∧
  w.glideSamplesRemaining = v.glideSamplesRemaining

/-! ### Fade-alpha invariant machinery -/

/-- The invariant that actually holds of `fadeAlpha` (the claimed
`fadeAlpha ≤ 1` fails: the update at Griffin_WT.h:332-337 ends the fade at
`fadeAlpha ≥ 1` without clamping). -/
def FadeInv (c : Ctx) (vp : VoicePack) : Prop :=
  0 ≤ vp.fadeAlpha ∧ vp.fadeAlpha < 1 + 8 / (c.FADE_LEN : ℚ) ∧
  (vp.fading = false → 1 ≤ vp.fadeAlpha) ∧
  (vp.fading = true → vp.fadeAlpha < 1)

/-! ## MipMapFlt (src/src/griffinwave5/MipMapFlt.hpp)

`long` fields are embedded as `ℤ` (`_len = -1` marks the uninitialised
state), sample buffers as `List ℚ`.  `use_table` returns the level buffer
offset by `_add_len_pre`; the embedding keeps the raw buffers and carries
the offset in the index arithmetic. -/

namespace MipMapFlt

/-- Error kinds of spec section 7 attached to the guarded entry points. -/
inductive Err where
  | InputOverflow
  | NotReady
deriving Repr, DecidableEq

end MipMapFlt

/-- The `MipMapFlt` state (MipMapFlt.hpp:159-165). `_table_arr` is the list
of per-level buffers (`TableData::_data`); `_data_ptr` is the `_add_len_pre`
offset carried implicitly. -/
structure MipMapFlt where
  table_arr : List (List ℚ)
  filter : List ℚ
  len : ℤ
  add_len_pre : ℤ
  add_len_post : ℤ
  filled_len : ℤ
  nbr_tables : ℕ
deriving Repr, DecidableEq

namespace MipMapFlt

/-- `MipMapFlt::get_lev_len` (MipMapFlt.hpp:266-272):
`scale = 1L << level; (len + scale - 1) >> level` — the operand is
nonnegative under the `_len >= 0` assert, so the arithmetic right shift is
division by `2^level`. -/
def get_lev_len (len : ℤ) (level : ℕ) : ℤ :=
  let scale : ℤ := 2 ^ level
  (len + scale - 1) / scale

/-- `MipMapFlt::resize_and_clear_tables` (MipMapFlt.hpp:281-292): each level
`i` gets a zeroed buffer of length `_add_len_pre + lev_len i + _add_len_post`. -/
def resize_and_clear_tables (s : MipMapFlt) : MipMapFlt :=
  { s with table_arr := (List.range s.nbr_tables).map (fun i =>
      List.replicate (s.add_len_pre + get_lev_len s.len i + s.add_len_post).toNat
        0) }

/-- `MipMapFlt::filter_sample` (MipMapFlt.hpp:326-338):
`sum = tbl[pos]*f[0]; for i in 1..half: sum += (tbl[pos-i]+tbl[pos+i])*f[i]`. -/
def filter_sample (filter tbl : List ℚ) (pos : ℤ) : ℚ :=
  (List.range (filter.length - 1)).foldl
    (fun sum (j : ℕ) =>
      let i : ℤ := (j : ℤ) + 1
      sum + (tbl.getD (pos - i).toNat 0 + tbl.getD (pos + i).toNat 0)
        * filter.getD (j + 1) 0)
    (tbl.getD pos.toNat 0 * filter.getD 0 0)

/-- `MipMapFlt::build_mip_map_level` (MipMapFlt.hpp:307-324): for
`pos ∈ [-quarter, lev_len + quarter)`,
`dst[pre + pos] = filter_sample(ref, pre + pos*2)`. -/
def build_mip_map_level (filter : List ℚ) (pre lev_len : ℤ)
    (ref dst : List ℚ) : List ℚ :=
  let half : ℤ := filter.length - 1
  let quarter := half / 2
  let end_pos := lev_len + quarter
  (List.range (end_pos + quarter).toNat).foldl
    (fun d j =>
      let pos : ℤ := j - quarter
      d.set (pre + pos).toNat (filter_sample filter ref (pre + pos * 2)))
    dst

/-- The level-building loop of `check_sample_and_build_mip_map`
(MipMapFlt.hpp:298-301): `for lvl in 1..nbr_tables-1: build_mip_map_level`. -/
def build_levels (s : MipMapFlt) : List (List ℚ) :=
  (List.range (s.nbr_tables - 1)).foldl
    (fun ts j =>
      let lvl := j + 1
      ts.set lvl (build_mip_map_level s.filter s.add_len_pre
        (get_lev_len s.len lvl) (ts.getD (lvl - 1) []) (ts.getD lvl [])))
    s.table_arr

/-- `MipMapFlt::check_sample_and_build_mip_map` (MipMapFlt.hpp:294-305). -/
def check_sample_and_build_mip_map (s : MipMapFlt) : Bool × MipMapFlt :=
  if s.filled_len = s.len then
    (decide (s.filled_len < s.len),
      { s with table_arr := build_levels s, filter := [] })
  else
    (decide (s.filled_len < s.len), s)

/-- The copy loop of `fill_sample` (MipMapFlt.hpp:229-232):
`for pos in 0..work_len-1: sample[offset + pos] = data_ptr[pos]`. -/
def copyInto (buf : List ℚ) (off : ℕ) : List ℚ → List ℚ
  | [] => buf
  | d :: ds => copyInto (buf.set off d) (off + 1) ds

/-- The body of `MipMapFlt::fill_sample` after its entry asserts
(MipMapFlt.hpp:225-234), i.e. the release-build semantics:
`work_len = min(nbr_spl, _len - _filled_len)` samples are copied to
`_table_arr[0]._data` starting at `_add_len_pre + _filled_len`. -/
def fill_sample_body (s : MipMapFlt) (data : List ℚ) : Bool × MipMapFlt :=
  let offset := s.add_len_pre + s.filled_len
  let work_len : ℤ := min (data.length : ℤ) (s.len - s.filled_len)
  let sample := copyInto (s.table_arr.getD 0 []) offset.toNat
    (data.take work_len.toNat)
  check_sample_and_build_mip_map
    { s with table_arr := s.table_arr.set 0 sample
             filled_len := s.filled_len + work_len }

/-- `MipMapFlt::fill_sample` (MipMapFlt.hpp:216-235) with its
`nbr_spl <= _len - _filled_len` entry assert rendered as the
`InputOverflow` failure of spec section 7 (the remaining entry asserts are
initialisation preconditions, carried as hypotheses by the theorems). -/
def fill_sample (s : MipMapFlt) (data : List ℚ) :
    Except Err (Bool × MipMapFlt) :=
  if (data.length : ℤ) > s.len - s.filled_len then .error .InputOverflow
  else .ok (fill_sample_body s data)

/-- `MipMapFlt::is_ready` (MipMapFlt.hpp:248-252). -/
def is_ready (s : MipMapFlt) : Bool :=
  decide (0 ≤ s.len) && decide (0 < s.nbr_tables)
    && decide (s.filled_len = s.len)

end MipMapFlt

/-! ## WaveMaker tripled slot (Griffin_WaveMaker.h Worker::run lines 121-133)

The worker writes, for each frame `f < 256`, three `memcpy`s of the 2048
samples at `mixBuf + f·2048` to the slot at `f·6144`, `f·6144 + 2048` and
`f·6144 + 4096`, advancing `dst` by `TripledFrame = 6144` and `src` by
`FrameSize = 2048`; the slot is therefore the concatenation over frames of
three copies of each frame's cycle. -/

namespace WaveMaker

def FrameSize : ℕ := 2048
def MaxFrames : ℕ := 256
def MaxSamples : ℕ := FrameSize * MaxFrames
def TripledFrame : ℕ := FrameSize * 3

/-- The three `memcpy`s for frame `f`: three copies of
`mixBuf[f·2048 .. f·2048 + 2048)`. -/
def tripleFrame (src : List ℚ) (f : ℕ) : List ℚ :=
  let c := (src.drop (f * FrameSize)).take FrameSize
  c ++ c ++ c

/-- The worker loop over the first `n` frames, slot laid out contiguously. -/
def tripleSlotAux (src : List ℚ) : ℕ → List ℚ
  | 0 => []
  | f + 1 => tripleSlotAux src f ++ tripleFrame src f

/-- The full tripled block written into the builder slot. -/
def tripleSlot (src : List ℚ) : List ℚ := tripleSlotAux src MaxFrames

end WaveMaker

/-! ## Theorems -/

lemma glideAdvance_done (tgt : ℚ) (len : ℕ) (vp : VoicePack)
    (h : vp.glideSamplesRemaining = 0) : glideAdvance true tgt len vp = vp := by
  simp [glideAdvance, h]

lemma glideAdvance_foldl_done (tgt : ℚ) (lens : List ℕ) (vp : VoicePack)
    (h : vp.glideSamplesRemaining = 0) :
    lens.foldl (fun s l => glideAdvance true tgt l s) vp = vp := by
  induction lens with
  | nil => rfl
  | cons l ls ih => rw [List.foldl_cons, glideAdvance_done tgt l vp h, ih]

lemma switchFrame_fade (m : ℕ) (vp : VoicePack) :
    (switchFrame m vp).fadeAlpha = 0 ∧ (switchFrame m vp).fading = true := by
  unfold switchFrame
  cases vp.toggle <;> simp

lemma glideAdvance_fade (g : Bool) (t : ℚ) (l : ℕ) (vp : VoicePack) :
    (glideAdvance g t l vp).fadeAlpha = vp.fadeAlpha ∧
    (glideAdvance g t l vp).fading = vp.fading := by
  simp only [glideAdvance]
  split_ifs <;> exact ⟨rfl, rfl⟩

lemma sliceProduce_fade (c : Ctx) (len : ℕ) (advC advP : ℤ)
    (vp : VoicePack) :
    (sliceProduce c len advC advP vp).fadeAlpha =
      (if vp.pendFlag then 0 else vp.fadeAlpha) ∧
    (sliceProduce c len advC advP vp).fading =
      (if vp.pendFlag then true else vp.fading) := by
  unfold sliceProduce
  by_cases hp : vp.pendFlag
  · obtain ⟨ha, hf⟩ := switchFrame_fade c.activeMip vp
    obtain ⟨ga, gf⟩ := glideAdvance_fade c.glideOn c.tgtBits len
      (switchFrame c.activeMip vp)
    simp only [hp, if_true]
    split_ifs <;> simp_all
  · obtain ⟨ga, gf⟩ := glideAdvance_fade c.glideOn c.tgtBits len vp
    simp only [hp, if_false]
    split_ifs <;> simp_all

lemma fadeUpdate_fadeInv (c : Ctx) (hF : 1 ≤ c.FADE_LEN) (len : ℕ)
    (hlen : len ≤ 8) (vp : VoicePack) (h : FadeInv c vp) :
    FadeInv c (fadeUpdate c len vp) := by
  obtain ⟨h0, h1, h2, h3⟩ := h
  have hFq : (0 : ℚ) < (c.FADE_LEN : ℚ) := by exact_mod_cast hF
  have hd0 : (0 : ℚ) ≤ 1 / (c.FADE_LEN : ℚ) * (len : ℚ) := by positivity
  have hd8 : 1 / (c.FADE_LEN : ℚ) * (len : ℚ) ≤ 8 / (c.FADE_LEN : ℚ) := by
    rw [one_div_mul_eq_div]
    have hl : ((len : ℚ)) ≤ 8 := by exact_mod_cast hlen
    exact (div_le_div_iff_of_pos_right hFq).mpr hl
  unfold fadeUpdate
  cases hfad : vp.fading with
  | false => simpa [hfad, FadeInv] using ⟨h0, h1, h2 hfad⟩
  | true =>
    have ha : vp.fadeAlpha < 1 := h3 hfad
    simp only [hfad, if_true]
    by_cases hge : 1 ≤ vp.fadeAlpha + 1 / (c.FADE_LEN : ℚ) * (len : ℚ)
    · simp only [hge, if_true]
      cases ht : vp.toggle <;>
        simp only [ht, if_true, if_false, Bool.false_eq_true] <;>
        exact ⟨by linarith, by linarith, fun _ => hge, by simp⟩
    · simp only [hge, if_false]
      exact ⟨by linarith, by linarith, by simp [hfad], fun _ => by linarith⟩

lemma noteOnVoice_fade (c : Ctx) (note : ℤ) (vel : ℚ) (g : ℤ) (sm mu : ℚ)
    (pb sp : ℤ) (vp : VoicePack) :
    (noteOnVoice c note vel g sm mu pb sp vp).fadeAlpha = 1 ∧
    (noteOnVoice c note vel g sm mu pb sp vp).fading = false := by
  unfold noteOnVoice VoicePack.reset VoicePack.clear
  split_ifs <;> exact ⟨rfl, rfl⟩

lemma initVoice_fade (c : Ctx) (g : ℤ) (sm mu : ℚ) (vp : VoicePack) :
    (initVoice c g sm mu vp).fadeAlpha = 1 ∧
    (initVoice c g sm mu vp).fading = false :=
  ⟨rfl, rfl⟩

lemma applyStep_fadeInv (c : Ctx) (hF : 1 ≤ c.FADE_LEN) (vp : VoicePack)
    (h : FadeInv c vp) (s : Step) (hs : s.valid = true) :
    FadeInv c (applyStep c vp s) := by
  have hFq : (0 : ℚ) < (c.FADE_LEN : ℚ) := by exact_mod_cast hF
  have h8 : (0 : ℚ) < 8 / (c.FADE_LEN : ℚ) := by positivity
  cases s with
  | noteOn note vel g sm mu pb sp =>
    obtain ⟨ha, hf⟩ := noteOnVoice_fade c note vel g sm mu pb sp vp
    exact ⟨by rw [applyStep, ha]; norm_num, by rw [applyStep, ha]; linarith,
      fun _ => by rw [applyStep, ha], fun hctr => by
        rw [applyStep] at hctr
        rw [hf] at hctr
        cases hctr⟩
  | setFrame f =>
    obtain ⟨h0, h1, h2, h3⟩ := h
    simp only [applyStep]
    split_ifs <;> exact ⟨h0, h1, h2, h3⟩
  | slice len advC advP =>
    have hlen : len ≤ 8 := by
      simp [Step.valid] at hs
      omega
    simp only [applyStep, processVoiceSlice]
    split_ifs with hact
    · exact h
    · refine fadeUpdate_fadeInv c hF len hlen _ ?_
      obtain ⟨h0, h1, h2, h3⟩ := h
      obtain ⟨pa, pf⟩ := sliceProduce_fade c len advC advP vp
      cases hp : vp.pendFlag with
      | true =>
        rw [hp] at pa pf
        simp only [if_pos] at pa pf
        refine ⟨by rw [pa], by rw [pa]; linarith, ?_, ?_⟩
        · intro hctr
          rw [pf] at hctr
          cases hctr
        · intro _
          rw [pa]
          linarith
      | false =>
        rw [hp] at pa pf
        simp only [Bool.false_eq_true, if_neg, if_false] at pa pf
        exact ⟨by rw [pa]; exact h0, by rw [pa]; exact h1,
          fun hh => by rw [pa]; exact h2 (by rw [← pf]; exact hh),
          fun hh => by rw [pa]; exact h3 (by rw [← pf]; exact hh)⟩

lemma runSteps_fadeInv (c : Ctx) (hF : 1 ≤ c.FADE_LEN) (steps : List Step)
    (hv : ∀ s ∈ steps, s.valid = true) (vp : VoicePack) (h : FadeInv c vp) :
    FadeInv c (runSteps c steps vp) := by
  induction steps generalizing vp with
  | nil => exact h
  | cons s ss ih =>
    exact ih (fun t ht => hv t (List.mem_cons_of_mem s ht)) _
      (applyStep_fadeInv c hF vp h s (hv s (List.mem_cons_self s ss)))

namespace MipMapFlt

lemma copyInto_length (data : List ℚ) : ∀ (buf : List ℚ) (off : ℕ),
    (copyInto buf off data).length = buf.length := by
  induction data with
  | nil => intro buf off; rfl
  | cons d ds ih =>
    intro buf off
    simp only [copyInto]
    rw [ih, List.length_set]

lemma copyInto_untouched (data : List ℚ) : ∀ (buf : List ℚ) (off i : ℕ),
    i < off ∨ off + data.length ≤ i →
    (copyInto buf off data)[i]? = buf[i]? := by
  induction data with
  | nil => intro buf off i _; rfl
  | cons d ds ih =>
    intro buf off i hi
    simp only [List.length_cons] at hi
    simp only [copyInto]
    rw [ih (buf.set off d) (off + 1) i (by omega)]
    exact List.getElem?_set_ne (by omega)

lemma build_levels_getD_zero (s : MipMapFlt) :
    (build_levels s).getD 0 [] = s.table_arr.getD 0 [] := by
  unfold build_levels
  generalize List.range (s.nbr_tables - 1) = js
  generalize s.table_arr = ts
  induction js generalizing ts with
  | nil => rfl
  | cons j js ih =>
    rw [List.foldl_cons, ih]
    rw [List.getD_eq_getElem?_getD, List.getD_eq_getElem?_getD,
      List.getElem?_set_ne (by omega)]

lemma check_preserves (s : MipMapFlt) :
    (check_sample_and_build_mip_map s).2.filled_len = s.filled_len ∧
    (check_sample_and_build_mip_map s).2.len = s.len ∧
    (check_sample_and_build_mip_map s).2.add_len_pre = s.add_len_pre ∧
    (check_sample_and_build_mip_map s).2.table_arr.getD 0 [] =
      s.table_arr.getD 0 [] := by
  unfold check_sample_and_build_mip_map
  split
  · exact ⟨rfl, rfl, rfl, build_levels_getD_zero s⟩
  · exact ⟨rfl, rfl, rfl, rfl⟩

end MipMapFlt

namespace WaveMaker

lemma tripleFrame_length (src : List ℚ) (f : ℕ)
    (h : src.length = MaxSamples) (hf : f < MaxFrames) :
    (tripleFrame src f).length = TripledFrame := by
  have hc : ((src.drop (f * FrameSize)).take FrameSize).length = FrameSize := by
    rw [List.length_take, List.length_drop, h]
    simp only [FrameSize, MaxFrames, MaxSamples] at *
    omega
  simp only [tripleFrame, List.length_append, hc]
  decide

lemma tripleSlotAux_length (src : List ℚ) (h : src.length = MaxSamples) :
    ∀ n, n ≤ MaxFrames → (tripleSlotAux src n).length = n * TripledFrame := by
  intro n
  induction n with
  | zero => intro _; rfl
  | succ m ih =>
    intro hm
    simp only [tripleSlotAux, List.length_append,
      ih (Nat.le_of_succ_le hm), tripleFrame_length src m h (by omega)]
    ring

lemma tripleFrame_getElem (src : List ℚ) (f j : ℕ)
    (h : src.length = MaxSamples) (hf : f < MaxFrames) (hj : j < FrameSize) :
    (tripleFrame src f)[j]? = src[f * FrameSize + j]? ∧
    (tripleFrame src f)[FrameSize + j]? = src[f * FrameSize + j]? ∧
    (tripleFrame src f)[2 * FrameSize + j]? = src[f * FrameSize + j]? := by
  have hc : ((src.drop (f * FrameSize)).take FrameSize).length = FrameSize := by
    rw [List.length_take, List.length_drop, h]
    simp only [FrameSize, MaxFrames, MaxSamples] at *
    omega
  have hcj : ∀ i : ℕ, i < FrameSize →
      ((src.drop (f * FrameSize)).take FrameSize)[i]? =
        src[f * FrameSize + i]? := by
    intro i hi
    rw [List.getElem?_take, if_pos hi, List.getElem?_drop]
  simp only [tripleFrame]
  refine ⟨?_, ?_, ?_⟩
  · rw [List.getElem?_append_left (by
        rw [List.length_append, hc]
        simp only [FrameSize] at *
        omega),
      List.getElem?_append_left (by rw [hc]; exact hj), hcj j hj]
  · rw [List.getElem?_append_left (by
        rw [List.length_append, hc]
        simp only [FrameSize] at *
        omega),
      List.getElem?_append_right (by rw [hc]; omega), hc]
    have : FrameSize + j - FrameSize = j := by omega
    rw [this, hcj j hj]
  · rw [List.getElem?_append_right (by
        rw [List.length_append, hc]
        simp only [FrameSize] at *
        omega),
      List.length_append, hc]
    have : 2 * FrameSize + j - (FrameSize + FrameSize) = j := by omega
    rw [this, hcj j hj]

lemma tripleSlotAux_getElem (src : List ℚ) (h : src.length = MaxSamples) :
    ∀ n, n ≤ MaxFrames → ∀ k, k < n → ∀ r, r < TripledFrame →
    (tripleSlotAux src n)[k * TripledFrame + r]? = (tripleFrame src k)[r]? := by
  intro n
  induction n with
  | zero => intro _ k hk; omega
  | succ m ih =>
    intro hm k hk r hr
    simp only [tripleSlotAux]
    rcases Nat.lt_or_ge k m with hkm | hkm
    · rw [List.getElem?_append_left (by
        rw [tripleSlotAux_length src h m (by omega)]
        calc k * TripledFrame + r < (k + 1) * TripledFrame := by
              simp only [Nat.add_mul, one_mul]; omega
          _ ≤ m * TripledFrame := Nat.mul_le_mul_right _ (by omega))]
      exact ih (by omega) k hkm r hr
    · have hke : k = m := by omega
      subst hke
      rw [List.getElem?_append_right (by
        rw [tripleSlotAux_length src h k (by omega)]; omega),
        tripleSlotAux_length src h k (by omega)]
      have : k * TripledFrame + r - k * TripledFrame = r := by omega
      rw [this]

end WaveMaker


/-- C3: for every frame index `k ∈ [0, 256)` and every 64-bit fixed-point
position `p`, `wrap k p` has integer part (high 32 bits) in
`[frameStart k, frameStart k + 2048)` — with `frameStart k = k·3·2048 + 2048`
— and its low 32 fractional bits are exactly those of `p`, also when `p`'s
integer part is below `frameStart k`. -/
theorem wrap_window (k p : ℤ) (hk0 : 0 ≤ k) (hk : k < 256)
    (hp0 : -(2 ^ 63) ≤ p) (hp1 : p < 2 ^ 63) :
    frameStart k = k * (3 * 2048) + 2048 ∧
    frameStart k ≤ wrap k p / 2 ^ 32 ∧
    wrap k p / 2 ^ 32 < frameStart k + 2048 ∧
    wrap k p % 2 ^ 32 = p % 2 ^ 32 := by
  simp only [wrap, frameStart, FRAME_SIZE, PADDED]
  norm_num
  omega

/-- Witness for C3 at `k = 3`, `p` with integer part below `frameStart 3`. -/
theorem wrap_window_witness :
    frameStart 3 = 3 * (3 * 2048) + 2048 ∧
    frameStart 3 ≤ wrap 3 5 / 2 ^ 32 ∧
    wrap 3 5 / 2 ^ 32 < frameStart 3 + 2048 ∧
    wrap 3 5 % 2 ^ 32 = 5 % 2 ^ 32 :=
  wrap_window 3 5 (by decide) (by decide) (by decide) (by decide)

/-- C1: on an active voice, after `switchFrame` the new foreground lane's
playback position is `((frameStart pendFrame + rel) << 32) | frac` where
`rel = (old integer position − frameStart frameParam) mod 2048` and `frac` is
the old foreground lane's 32-bit fractional part; hence the intra-cycle
integer offset modulo `N = 2048` and the fractional position agree on both
lanes at the switch instant. -/
theorem switchFrame_phase (m : ℕ) (vp : VoicePack) (hA : vp.active = true) :
    (switchFrame m vp).foreground.pos =
      (frameStart vp.pendFrame +
        (vp.foreground.pos / 2 ^ 32 - frameStart vp.frameParam) % FRAME_SIZE)
        * 2 ^ 32 + vp.foreground.pos % 2 ^ 32 ∧
    ((switchFrame m vp).foreground.pos / 2 ^ 32 -
        frameStart (switchFrame m vp).frameParam) % FRAME_SIZE =
      (vp.foreground.pos / 2 ^ 32 - frameStart vp.frameParam) % FRAME_SIZE ∧
    (switchFrame m vp).foreground.pos % 2 ^ 32 =
      vp.foreground.pos % 2 ^ 32 := by
  cases h : vp.toggle <;>
  · simp [switchFrame, VoicePack.foreground, initLane, h, FRAME_SIZE]
    omega

/-- Witness for C1 on a concrete active voice. -/
theorem switchFrame_phase_witness :
    ∃ vp : VoicePack, vp.active = true ∧
      (switchFrame 0 vp).foreground.pos =
        (frameStart vp.pendFrame +
          (vp.foreground.pos / 2 ^ 32 - frameStart vp.frameParam) % FRAME_SIZE)
          * 2 ^ 32 + vp.foreground.pos % 2 ^ 32 := by
  refine ⟨{ A := ⟨(frameStart 0 + 7) * 2 ^ 32 + 5, 0, 0, 0, true⟩,
            B := ⟨0, 0, 0, -1, false⟩,
            pitchBits := 0, semiOff := 0, multOff := 1, toggle := false,
            fading := false, fadeAlpha := 1, frameParam := 0, pendFrame := 2,
            pendFlag := true, midi := 60, vel := 1, active := true,
            glideCurBits := 0, glideStepBitsPerSample := 0,
            glideSamplesRemaining := 0 }, rfl, ?_⟩
  exact (switchFrame_phase 0 _ rfl).1

/-- C4: with glide enabled, whatever the glide target, time, sample rate and
block segmentation (any sequence of slice lengths ≥ 1 whose total reaches
`glideSamplesRemaining`), when `glideSamplesRemaining` reaches 0 during
processing, `glideCurBits` is set to exactly the target-bits value
`tgt = 12·log2(T)·(1<<16)/12` (kept symbolic), with no residual drift from
the accumulated per-slice steps, so the per-slice effective pitch becomes
`pitchBits + lround tgt`. -/
theorem glide_snap_exact (tgt : ℚ) (lens : List ℕ) (vp : VoicePack)
    (h0 : 0 < vp.glideSamplesRemaining)
    (h1 : ∀ l ∈ lens, 1 ≤ l)
    (h2 : vp.glideSamplesRemaining ≤ (lens.sum : ℤ)) :
    (lens.foldl (fun s l => glideAdvance true tgt l s) vp).glideCurBits = tgt ∧
    (lens.foldl (fun s l => glideAdvance true tgt l s) vp).glideSamplesRemaining
      = 0 ∧
    vp.pitchBits +
        lround (lens.foldl (fun s l => glideAdvance true tgt l s)
          vp).glideCurBits = vp.pitchBits + lround tgt := by
  induction lens generalizing vp with
  | nil => simp at h2; omega
  | cons l ls ih =>
    rw [List.foldl_cons]
    by_cases hr : vp.glideSamplesRemaining ≤ (l : ℤ)
    · have hstep : glideAdvance true tgt l vp =
          { vp with glideCurBits := tgt, glideSamplesRemaining := 0 } := by
        simp [glideAdvance, h0, hr, min_eq_left hr]
      rw [hstep, glideAdvance_foldl_done tgt ls _ rfl]
      exact ⟨rfl, rfl, rfl⟩
    · have hmin : min vp.glideSamplesRemaining (l : ℤ) = l := by omega
      have hstep : glideAdvance true tgt l vp =
          { vp with
            glideCurBits := vp.glideCurBits + vp.glideStepBitsPerSample * l
            glideSamplesRemaining := vp.glideSamplesRemaining - l } := by
        simp only [glideAdvance, hmin, if_true]
        rw [if_pos h0, if_neg (by omega)]
        norm_cast
      rw [hstep]
      refine ih _ (by simp; omega) (fun a ha => h1 a (List.mem_cons_of_mem l ha))
        ?_
      have := List.sum_cons (a := l) (l := ls)
      simp only [this, Nat.cast_add] at h2
      simp only []
      omega

/-- Witness for C4: a single voice gliding over slices `[8, 8]` with 10
samples remaining snaps exactly to the target. -/
theorem glide_snap_exact_witness :
    ∃ vp : VoicePack, 0 < vp.glideSamplesRemaining ∧
      ([8, 8].foldl (fun s l => glideAdvance true 37 l s) vp).glideCurBits
        = 37 := by
  refine ⟨{ A := ⟨0, 0, 0, -1, false⟩, B := ⟨0, 0, 0, -1, false⟩,
            pitchBits := 0, semiOff := 0, multOff := 1, toggle := false,
            fading := false, fadeAlpha := 1, frameParam := 0, pendFrame := 0,
            pendFlag := false, midi := 60, vel := 1, active := true,
            glideCurBits := 5, glideStepBitsPerSample := 2,
            glideSamplesRemaining := 10 }, by decide, ?_⟩
  exact (glide_snap_exact 37 [8, 8] _ (by decide) (by decide) (by decide)).1

/-- C9: every value `v ≤ 0` written to the Glide-Mult parameter (id 7) is
coerced to `1.0`, so after any sequence of writes `paramGlideTarget` is
strictly positive and every `log2 paramGlideTarget` in the glide paths gets
a positive argument. -/
theorem glideTarget_always_positive (vs : List ℚ) :
    (∀ v : ℚ, v ≤ 0 → coerceMult v = 1) ∧ 0 < glideTargetAfter vs := by
  constructor
  · intro v hv
    simp [coerceMult, hv]
  · induction vs using List.reverseRecOn with
    | nil => norm_num [glideTargetAfter]
    | append_singleton ls v _ =>
      simp only [glideTargetAfter, List.foldl_append, List.foldl_cons,
        List.foldl_nil, coerceMult]
      split <;> [norm_num; linarith [not_le.mp (by assumption)]]

/-- Witness for C9 at the write sequence `[3, -2]`. -/
theorem glideTarget_always_positive_witness :
    ((-2 : ℚ) ≤ 0 → coerceMult (-2) = 1) ∧ 0 < glideTargetAfter [3, -2] :=
  ⟨fun hv => (glideTarget_always_positive []).1 (-2) hv,
    (glideTarget_always_positive [3, -2]).2⟩

/-- C7: for every initialised mipmap length `len ≥ 0` and level
`k < nbr_tables`, `get_lev_len` returns exactly `⌈len / 2^k⌉`. -/
theorem get_lev_len_eq_ceil (len : ℤ) (k nbr : ℕ) (h0 : 0 ≤ len)
    (hk : k < nbr) :
    MipMapFlt.get_lev_len len k = ⌈(len : ℚ) / ((2 : ℚ) ^ k)⌉ := by
  have hg : MipMapFlt.get_lev_len len k = (len + 2 ^ k - 1) / 2 ^ k := rfl
  have hpow : (0 : ℤ) < 2 ^ k := pow_pos (by norm_num) k
  have hq : (0 : ℚ) < (2 : ℚ) ^ k := by positivity
  have he := Int.ediv_add_emod (len + 2 ^ k - 1) (2 ^ k)
  have hr0 := Int.emod_nonneg (len + 2 ^ k - 1) (ne_of_gt hpow)
  have hrlt := Int.emod_lt_of_pos (len + 2 ^ k - 1) hpow
  have key1 : len ≤ (len + 2 ^ k - 1) / 2 ^ k * 2 ^ k := by nlinarith
  have key2 : ((len + 2 ^ k - 1) / 2 ^ k - 1) * 2 ^ k < len := by nlinarith
  rw [hg]
  symm
  rw [Int.ceil_eq_iff]
  constructor
  · rw [lt_div_iff₀ hq]
    exact_mod_cast key2
  · rw [div_le_iff₀ hq]
    exact_mod_cast key1

/-- Witness for C7 at `len = 10`, `k = 2`, `nbr = 12`. -/
theorem get_lev_len_eq_ceil_witness :
    (0 : ℤ) ≤ 10 ∧ 2 < 12 ∧
    MipMapFlt.get_lev_len 10 2 = ⌈((10 : ℤ) : ℚ) / ((2 : ℚ) ^ 2)⌉ :=
  ⟨by decide, by decide, get_lev_len_eq_ceil 10 2 12 (by decide) (by decide)⟩

/-- C5: `fill_sample` given more samples than the remaining expected length
`len − filled_len` fails with `InputOverflow`, leaving the state consistent
(the `Except` failure returns no new state; moreover even the release-build
body consumes no sample beyond the expected length: `filled_len` lands
exactly at `len`, never above). -/
theorem fill_sample_overflow (s : MipMapFlt) (data : List ℚ)
    (hfil : 0 ≤ s.filled_len) (hlen : s.filled_len ≤ s.len)
    (hover : (data.length : ℤ) > s.len - s.filled_len) :
    MipMapFlt.fill_sample s data = .error .InputOverflow ∧
    (MipMapFlt.fill_sample_body s data).2.filled_len = s.len := by
  constructor
  · simp [MipMapFlt.fill_sample, hover]
  · unfold MipMapFlt.fill_sample_body
    rw [(MipMapFlt.check_preserves _).1]
    simp only []
    omega

/-- Witness for C5: `len = 4`, `filled_len = 2`, three samples offered. -/
theorem fill_sample_overflow_witness :
    (0 : ℤ) ≤ 2 ∧ (2 : ℤ) ≤ 4 ∧ ((3 : ℚ) :: [5, 7]).length > (4 : ℤ) - 2 ∧
    MipMapFlt.fill_sample ⟨[[0, 0, 0, 0, 0, 0]], [], 4, 1, 1, 2, 1⟩ [3, 5, 7]
      = .error .InputOverflow :=
  ⟨by decide, by decide, by norm_num,
    (fill_sample_overflow ⟨[[0, 0, 0, 0, 0, 0]], [], 4, 1, 1, 2, 1⟩ [3, 5, 7]
      (by decide) (by decide) (by norm_num)).1⟩

/-- C10: after `init_sample`, each `fill_sample` call (release-build body)
copies exactly `min nbr_spl (len − filled_len)` samples, every write lands
inside the level-0 buffer window `[pre_pad, pre_pad + len)` (entries outside
the written range `[pre_pad + filled_len, pre_pad + filled_len + copied)` are
untouched and that range sits inside the window), the buffer length is
unchanged, and `filled_len` never exceeds `len`. -/
theorem fill_sample_body_bounds (s : MipMapFlt) (data : List ℚ)
    (hpre : 0 ≤ s.add_len_pre) (hfil : 0 ≤ s.filled_len)
    (hlen : s.filled_len ≤ s.len) (htab : s.table_arr ≠ []) :
    (MipMapFlt.fill_sample_body s data).2.filled_len =
      s.filled_len + min (data.length : ℤ) (s.len - s.filled_len) ∧
    (MipMapFlt.fill_sample_body s data).2.filled_len ≤ s.len ∧
    ((MipMapFlt.fill_sample_body s data).2.table_arr.getD 0 []).length =
      (s.table_arr.getD 0 []).length ∧
    s.add_len_pre ≤ s.add_len_pre + s.filled_len ∧
    s.add_len_pre + s.filled_len + min (data.length : ℤ)
        (s.len - s.filled_len) ≤ s.add_len_pre + s.len ∧
    ∀ i : ℕ, ((i : ℤ) < s.add_len_pre + s.filled_len ∨
        s.add_len_pre + s.filled_len +
          min (data.length : ℤ) (s.len - s.filled_len) ≤ (i : ℤ)) →
      ((MipMapFlt.fill_sample_body s data).2.table_arr.getD 0 [])[i]? =
        (s.table_arr.getD 0 [])[i]? := by
  have hmin0 : 0 ≤ min (data.length : ℤ) (s.len - s.filled_len) := by
    have : (0 : ℤ) ≤ (data.length : ℤ) := Int.ofNat_nonneg _
    omega
  have htake : (data.take (min (data.length : ℤ)
      (s.len - s.filled_len)).toNat).length =
      (min (data.length : ℤ) (s.len - s.filled_len)).toNat := by
    rw [List.length_take]
    omega
  have hset : ∀ sample : List ℚ,
      ((s.table_arr.set 0 sample).getD 0 []) = sample := by
    intro sample
    rw [List.getD_eq_getElem?_getD,
      List.getElem?_set_eq_of_lt sample (List.length_pos.mpr htab)]
    rfl
  unfold MipMapFlt.fill_sample_body
  rw [(MipMapFlt.check_preserves _).1]
  refine ⟨rfl, by simp only []; omega, ?_, by omega, by omega, ?_⟩
  · rw [(MipMapFlt.check_preserves _).2.2.2]
    simp only [hset]
    rw [MipMapFlt.copyInto_length]
  · intro i hi
    rw [(MipMapFlt.check_preserves _).2.2.2]
    simp only [hset]
    rw [MipMapFlt.copyInto_untouched]
    rw [htake]
    omega

/-- Witness for C10: `len = 4`, `pre = 2`, `filled = 1`, two samples. -/
theorem fill_sample_body_bounds_witness :
    (MipMapFlt.fill_sample_body
        ⟨[[0, 0, 0, 0, 0, 0, 0, 0]], [], 4, 2, 2, 1, 1⟩ [3, 5]).2.filled_len =
      1 + min ((2 : ℕ) : ℤ) ((4 : ℤ) - 1) ∧
    (MipMapFlt.fill_sample_body
        ⟨[[0, 0, 0, 0, 0, 0, 0, 0]], [], 4, 2, 2, 1, 1⟩ [3, 5]).2.filled_len
      ≤ 4 := by
  have h := fill_sample_body_bounds
    ⟨[[0, 0, 0, 0, 0, 0, 0, 0]], [], 4, 2, 2, 1, 1⟩ [3, 5]
    (by decide) (by decide) (by decide) (by decide)
  exact ⟨by simpa using h.1, h.2.1⟩

/-- C8: for every blended wavetable of 524288 samples, the tripled block
written into the builder slot holds, for each frame `k < 256` and sample
`j < 2048`, three contiguous copies of the 2048-sample cycle starting at
`k·6144`: `slot[k·6144 + j] = slot[k·6144 + 2048 + j] =
slot[k·6144 + 4096 + j] = blended[k·2048 + j]`. -/
theorem tripleSlot_spec (src : List ℚ) (h : src.length = 524288)
    (k j : ℕ) (hk : k < 256) (hj : j < 2048) :
    (WaveMaker.tripleSlot src)[k * 6144 + j]? = src[k * 2048 + j]? ∧
    (WaveMaker.tripleSlot src)[k * 6144 + 2048 + j]? = src[k * 2048 + j]? ∧
    (WaveMaker.tripleSlot src)[k * 6144 + 4096 + j]? = src[k * 2048 + j]? := by
  have h' : src.length = WaveMaker.MaxSamples := h
  have h6144 : ∀ r, r < 6144 →
      (WaveMaker.tripleSlot src)[k * 6144 + r]? =
        (WaveMaker.tripleFrame src k)[r]? := by
    intro r hr
    exact WaveMaker.tripleSlotAux_getElem src h' WaveMaker.MaxFrames
      (le_refl _) k hk r hr
  obtain ⟨e1, e2, e3⟩ := WaveMaker.tripleFrame_getElem src k j h' hk hj
  refine ⟨?_, ?_, ?_⟩
  · rw [h6144 j (by omega)]
    exact e1
  · have hidx : k * 6144 + 2048 + j = k * 6144 + (2048 + j) := by omega
    rw [hidx, h6144 (2048 + j) (by omega)]
    exact e2
  · have hidx : k * 6144 + 4096 + j = k * 6144 + (4096 + j) := by omega
    rw [hidx, h6144 (4096 + j) (by omega)]
    exact e3

/-- Witness for C8: the all-zero blended table, frame 3, sample 5. -/
theorem tripleSlot_spec_witness :
    (List.replicate 524288 (0 : ℚ)).length = 524288 ∧ 3 < 256 ∧ 5 < 2048 ∧
    (WaveMaker.tripleSlot (List.replicate 524288 (0 : ℚ)))[3 * 6144 + 5]? =
      (List.replicate 524288 (0 : ℚ))[3 * 2048 + 5]? :=
  ⟨List.length_replicate 524288 0, by decide, by decide,
    (tripleSlot_spec (List.replicate 524288 0) (List.length_replicate 524288 0)
      3 5 (by decide) (by decide)).1⟩

/-- C2 counterexample: with `FADE_LEN = 4` and a frame switch followed by
slices of 3 and 8 samples, the fade ends (`fading = false`) with
`fadeAlpha = 11/4 > 1`, refuting both `fadeAlpha ≤ 1` and
`fading = false → fadeAlpha = 1`.  The same trace shape reaches
`fadeAlpha > 1` for every `FADE_LEN ≥ 1`. -/
theorem fadeAlpha_exceeds_one :
    (runSteps ⟨4, false, 0, 0, 0⟩
        [Step.noteOn 60 1 0 0 1 0 0, Step.setFrame 1,
         Step.slice 3 0 0, Step.slice 8 0 0]
        (initVoice ⟨4, false, 0, 0, 0⟩ 0 0 1 VoicePack.init)).fading
      = false ∧
    ¬ ((runSteps ⟨4, false, 0, 0, 0⟩
        [Step.noteOn 60 1 0 0 1 0 0, Step.setFrame 1,
         Step.slice 3 0 0, Step.slice 8 0 0]
        (initVoice ⟨4, false, 0, 0, 0⟩ 0 0 1 VoicePack.init)).fadeAlpha
      ≤ 1) := by
  norm_num [runSteps, List.foldl, applyStep, noteOnVoice, VoicePack.reset,
    VoicePack.clear, initVoice, initLane, VoicePack.init, processVoiceSlice,
    sliceProduce, fadeUpdate, switchFrame, glideAdvance, laneProduce,
    clampFrame, lround, wrap, frameStart, FRAME_SIZE, PADDED, MAX_FRAMES,
    ctrunc, max_def, min_def]

/-- C2 (amended): in every reachable `VoicePack` state — after
`initVoice`/`clear`, note-on, frame-parameter writes and any number of
processed slices of length in `[1, 8]` — `fadeAlpha` satisfies
`0 ≤ fadeAlpha < 1 + SLICE / FADE_LEN`; while `fading` is true,
`fadeAlpha < 1`, and when `fading` is false, `fadeAlpha ≥ 1` (not
necessarily `= 1`: the update ending the fade does not clamp). -/
theorem fadeAlpha_invariant (c : Ctx) (hF : 1 ≤ c.FADE_LEN)
    (steps : List Step) (hv : ∀ s ∈ steps, s.valid = true)
    (g : ℤ) (semi mult : ℚ) (vp₀ : VoicePack) :
    0 ≤ (runSteps c steps (initVoice c g semi mult vp₀)).fadeAlpha ∧
    (runSteps c steps (initVoice c g semi mult vp₀)).fadeAlpha
      < 1 + 8 / (c.FADE_LEN : ℚ) ∧
    ((runSteps c steps (initVoice c g semi mult vp₀)).fading = false →
      1 ≤ (runSteps c steps (initVoice c g semi mult vp₀)).fadeAlpha) ∧
    ((runSteps c steps (initVoice c g semi mult vp₀)).fading = true →
      (runSteps c steps (initVoice c g semi mult vp₀)).fadeAlpha < 1) := by
  have hFq : (0 : ℚ) < (c.FADE_LEN : ℚ) := by exact_mod_cast hF
  have h8 : (0 : ℚ) < 8 / (c.FADE_LEN : ℚ) := by positivity
  obtain ⟨ha, hf⟩ := initVoice_fade c g semi mult vp₀
  exact runSteps_fadeInv c hF steps hv _
    ⟨by rw [ha]; norm_num, by rw [ha]; linarith, fun _ => by rw [ha],
      fun hctr => by rw [hf] at hctr; cases hctr⟩

/-- Witness for the amended C2 at `FADE_LEN = 64` and a single slice. -/
theorem fadeAlpha_invariant_witness :
    1 ≤ (⟨64, false, 0, 0, 0⟩ : Ctx).FADE_LEN ∧
    (∀ s ∈ [Step.slice 4 0 0], s.valid = true) ∧
    0 ≤ (runSteps ⟨64, false, 0, 0, 0⟩ [Step.slice 4 0 0]
        (initVoice ⟨64, false, 0, 0, 0⟩ 0 0 1 VoicePack.init)).fadeAlpha :=
  ⟨by decide, by decide,
    (fadeAlpha_invariant ⟨64, false, 0, 0, 0⟩ (by decide) [Step.slice 4 0 0]
      (by decide) 0 0 1 VoicePack.init).1⟩

lemma adoptMip_ready (mp : Option ℕ) (e : Engine) :
    (adoptMip mp e).ready = e.ready := by
  unfold adoptMip
  cases mp with
  | none => rfl
  | some m =>
    by_cases hm : m ≠ e.activeMip <;> simp [hm]

/-- C6 counterexample: with `ready = false` and a freshly published mipmap
(tag 1, differing from the bound tag 0), `process` rebinds the voice's lane
to the new mipmap — the adoption prologue (Griffin_WT.h:253-267) runs before
the `if (!ready) return` gate (line 269), so lane state does change before
`prepare`. -/
theorem process_not_ready_changes_lane :
    (⟨false, 0, 1, 0, 0, 1, false, 0, 0, [VoicePack.init]⟩ : Engine).ready
      = false ∧
    (((process 64 0 0 0 [] (some 1) 8 [0] [0]
          ⟨false, 0, 1, 0, 0, 1, false, 0, 0,
            [VoicePack.init]⟩).1.voices.getD 0 VoicePack.init).A.mip = 1 ∧
      ((⟨false, 0, 1, 0, 0, 1, false, 0, 0,
          [VoicePack.init]⟩ : Engine).voices.getD 0
          VoicePack.init).A.mip = 0) := by
  refine ⟨rfl, ?_, rfl⟩
  rfl

/-- C6 (amended): before `prepare` (`ready = false`), `handleHiseEvent`
makes no change at all, and `process` writes nothing to the audio block and
returns the state produced by the mipmap-adoption prologue alone — which
preserves every `VoicePack` field except the lanes' mipmap binding (and,
for active voices, lane pitch), and only acts when a newly published mipmap
differs from the bound one.  The adoption prologue is the one state change
the gate does not cover. -/
theorem not_ready_gate (F : ℕ) (tgt : ℚ) (advC advP : ℤ) (mixOut : List ℚ)
    (mp : Option ℕ) (N : ℕ) (inL inR : List ℚ) (e : Engine)
    (h : e.ready = false) (isOn : Bool) (note : ℤ) (vel : ℚ) (idx : ℕ)
    (pb sp : ℤ) :
    handleHiseEvent e isOn note vel idx F tgt pb sp = e ∧
    (process F tgt advC advP mixOut mp N inL inR e).2 = (inL, inR) ∧
    (process F tgt advC advP mixOut mp N inL inR e).1 = adoptMip mp e ∧
    (adoptMip mp e).ready = false ∧
    (∀ m v, voiceCoreEq v (rebindVoice m v)) ∧
    ((adoptMip mp e).voices = e.voices ∨
      ∃ m, mp = some m ∧ m ≠ e.activeMip ∧
        (adoptMip mp e).voices = e.voices.map (rebindVoice m)) := by
  refine ⟨?_, ?_, ?_, ?_, ?_, ?_⟩
  · simp [handleHiseEvent, h]
  · simp [process, adoptMip_ready, h]
  · simp [process, adoptMip_ready, h]
  · rw [adoptMip_ready, h]
  · intro m v
    simp only [rebindVoice, voiceCoreEq]
    split_ifs <;> simp
  · unfold adoptMip
    cases mp with
    | none => exact Or.inl rfl
    | some m =>
      by_cases hm : m ≠ e.activeMip
      · exact Or.inr ⟨m, rfl, hm, by simp [hm]⟩
      · simp [hm]

/-- Witness for the amended C6 on a concrete not-ready engine. -/
theorem not_ready_gate_witness :
    (⟨false, 0, 1, 0, 0, 1, false, 0, 0, []⟩ : Engine).ready = false ∧
    handleHiseEvent ⟨false, 0, 1, 0, 0, 1, false, 0, 0, []⟩ true 60 1 0 64 0
        0 0 = ⟨false, 0, 1, 0, 0, 1, false, 0, 0, []⟩ ∧
    (process 64 0 0 0 [] none 8 [0] [0]
        ⟨false, 0, 1, 0, 0, 1, false, 0, 0, []⟩).2 = ([0], [0]) :=
  ⟨rfl,
    (not_ready_gate 64 0 0 0 [] none 8 [0] [0]
      ⟨false, 0, 1, 0, 0, 1, false, 0, 0, []⟩ rfl true 60 1 0 0 0).1,
    (not_ready_gate 64 0 0 0 [] none 8 [0] [0]
      ⟨false, 0, 1, 0, 0, 1, false, 0, 0, []⟩ rfl true 60 1 0 0 0).2.1⟩

end GriffinWave


